import Mathlib

/-!
Shallow embedding of the ruler repository's agent-selection, rule-concatenation
and apply/revert logic.

The source is TypeScript running on Node.  Strings are modelled by Lean
`String`; the JS string primitives used by the code (`toLowerCase`, `trim`,
`includes`, `split`) are re-implemented structurally on the underlying
character list so that they compute by kernel reduction.  JS `Set` (insertion
ordered, deduplicating) is modelled by a fold that keeps first occurrences.
Records (`Record<string, T>`) read by key are modelled as `String → Option T`;
records built by enumerating entries are modelled as association lists
(`Object.entries` order = insertion order).  A thrown `Error` is modelled by
`Except` with the error value carrying the constructed message string.
-/

/-- Model of JS `String.prototype.toLowerCase`, character-wise lowercasing. -/
def jsToLower (s : String) : String := ⟨s.data.map Char.toLower⟩

/-- Model of JS `String.prototype.trim`: drop whitespace from both ends. -/
def jsTrim (s : String) : String :=
  ⟨((s.data.dropWhile Char.isWhitespace).reverse.dropWhile Char.isWhitespace).reverse⟩

/-- Boolean infix test on character lists, structurally recursive. -/
def infixB (pat : List Char) : List Char → Bool
  | [] => pat.isEmpty
  | c :: t => pat.isPrefixOf (c :: t) || infixB pat t

/-- Model of JS `s.includes(pat)`: `pat` occurs as a contiguous substring of `s`. -/
def jsIncludes (s pat : String) : Bool := infixB pat.data s.data

/-- Model of a JS `Set` built from a list and spread back to an array:
deduplicate keeping the first occurrence, preserving insertion order. -/
def jsSetToList (l : List String) : List String :=
  l.foldl (fun acc x => if acc.contains x then acc else acc ++ [x]) []

/-- Agent descriptor: the `IAgent` interface restricted to the two observers
the selection code uses, `getIdentifier()` and `getName()`. -/
structure IAgent where
  identifier : String
  name : String
deriving DecidableEq, Repr

/-- Per-agent settings record (`IAgentConfig`): optional `enabled` flag and
optional `outputPath` override. -/
structure IAgentConfig where
  enabled : Option Bool := none
  outputPath : Option String := none
deriving DecidableEq, Repr

/-- The `LoadedConfig` fields consumed by `resolveSelectedAgents`.  `cliAgents`
and `defaultAgents` may be absent (`none`) or present; `agentConfigs` is a
record read by agent identifier. -/
structure LoadedConfig where
  cliAgents : Option (List String) := none
  defaultAgents : Option (List String) := none
  agentConfigs : String → Option IAgentConfig := fun _ => none

/-- Error value produced by `createRulerError` (a JS `Error` with a message). -/
structure RulerError where
  message : String
deriving DecidableEq, Repr

/-- The constant `ERROR_PREFIX = '[ruler]'` from `constants.ts`. -/
def rulerErrorTag : String := "[ruler]"

/-- Embedding of `createRulerError(message, context?)` from `constants.ts`. -/
def createRulerError (message : String) (context : Option String) : RulerError :=
  match context with
  | some ctx => ⟨rulerErrorTag ++ " " ++ message ++ " (Context: " ++ ctx ++ ")"⟩
  | none => ⟨rulerErrorTag ++ " " ++ message⟩

/-- The JS truthiness test `xs && xs.length > 0` on an optional list. -/
def hasEntries : Option (List String) → Bool
  | some l => l.length > 0
  | none => false

/-- Embedding of `resolveSelectedAgents(config, allAgents)`: CLI `--agents`
filters take precedence, then `default_agents`, then per-agent `enabled`
flags, defaulting to all agents. -/
def resolveSelectedAgents (config : LoadedConfig) (allAgents : List IAgent) :
    Except RulerError (List IAgent) :=
  if hasEntries config.cliAgents then
    let filters := (config.cliAgents.getD []).map jsToLower
    let validAgentIdentifiers := jsSetToList (allAgents.map (fun agent => agent.identifier))
    let validAgentNames := jsSetToList (allAgents.map (fun agent => jsToLower agent.name))
    let invalidAgents := filters.filter (fun f =>
      !(validAgentIdentifiers.contains f) &&
        !(validAgentNames.any (fun n => jsIncludes n f)))
    if invalidAgents.length > 0 then
      .error (createRulerError
        ("Invalid agent specified: " ++ String.intercalate ", " invalidAgents)
        (some ("Valid agents are: " ++ String.intercalate ", " validAgentIdentifiers)))
    else
      .ok (allAgents.filter (fun agent =>
        filters.any (fun f =>
          agent.identifier == f || jsIncludes (jsToLower agent.name) f)))
  else if hasEntries config.defaultAgents then
    let defaults := (config.defaultAgents.getD []).map jsToLower
    let validAgentIdentifiers := jsSetToList (allAgents.map (fun agent => agent.identifier))
    let validAgentNames := jsSetToList (allAgents.map (fun agent => jsToLower agent.name))
    let invalidAgents := defaults.filter (fun f =>
      !(validAgentIdentifiers.contains f) &&
        !(validAgentNames.any (fun n => jsIncludes n f)))
    if invalidAgents.length > 0 then
      .error (createRulerError
        ("Invalid agent specified in default_agents: " ++ String.intercalate ", " invalidAgents)
        (some ("Valid agents are: " ++ String.intercalate ", " validAgentIdentifiers)))
    else
      .ok (allAgents.filter (fun agent =>
        match (config.agentConfigs agent.identifier).bind (fun c => c.enabled) with
        | some b => b
        | none => defaults.any (fun d =>
            agent.identifier == d || jsIncludes (jsToLower agent.name) d)))
  else
    .ok (allAgents.filter (fun agent =>
      (config.agentConfigs agent.identifier).bind (fun c => c.enabled) != some false))

/-- Structural split of a string at `/` characters (model of JS
`s.split('/')` for the single-character separator used by POSIX paths). -/
def splitSlashAux (cur : List Char) : List Char → List (List Char)
  | [] => [cur.reverse]
  | c :: t => if c = '/' then cur.reverse :: splitSlashAux [] t else splitSlashAux (c :: cur) t

/-- Split a string into its `/`-separated components. -/
def splitSlash (s : String) : List String := (splitSlashAux [] s.data).map (fun l => ⟨l⟩)

/-- Length of the common leading run of two component lists. -/
def commonPrefixLength : List String → List String → Nat
  | a :: as, b :: bs => if a = b then commonPrefixLength as bs + 1 else 0
  | _, _ => 0

/-- Model of Node's `path.relative(fromPath, toPath)` for absolute POSIX
paths: drop the common leading components, climb out of the remaining
`fromPath` components with `..`, then descend into the rest of `toPath`. -/
def pathRelative (fromPath toPath : String) : String :=
  let fromParts := (splitSlash fromPath).filter (fun p => p != "")
  let toParts := (splitSlash toPath).filter (fun p => p != "")
  let k := commonPrefixLength fromParts toParts
  String.intercalate "/" (List.replicate (fromParts.length - k) ".." ++ toParts.drop k)

/-- Rule fragment: a source path paired with its text content. -/
structure RuleFile where
  path : String
  content : String
deriving DecidableEq, Repr

/-- Embedding of `concatenateRules(files, baseDir?)` from `RuleProcessor.ts`.
The JS fallback `baseDir || process.cwd()` (which also triggers on the empty
string, a falsy value) is modelled by the explicit `cwd` argument. -/
def concatenateRules (files : List RuleFile) (baseDir : Option String) (cwd : String) : String :=
  let base := match baseDir with
    | some b => if b = "" then cwd else b
    | none => cwd
  let sections := files.map (fun file =>
    let rel := pathRelative base file.path
    String.intercalate "\n" ["---", "Source: " ++ rel, "---", jsTrim file.content, ""])
  String.intercalate "\n" sections

/-- Embedding of `mapRawAgentConfigs(raw, agents)`: for each raw entry in
insertion order, assign its settings to every agent whose identifier equals
the lower-cased key or whose lower-cased display name contains it. -/
def mapRawAgentConfigs (raw : List (String × IAgentConfig)) (agents : List IAgent) :
    String → Option IAgentConfig :=
  raw.foldl (fun mappedConfigs entry =>
    let lowerKey := jsToLower entry.1
    agents.foldl (fun m agent =>
      if agent.identifier == lowerKey || jsIncludes (jsToLower agent.name) lowerKey then
        fun q => if q = agent.identifier then some entry.2 else m q
      else m) mappedConfigs)
    (fun _ => none)

/-- File system state: a map from paths to file contents. -/
def FileSys : Type := String → Option String

/-- Write (create or overwrite) the file at path `p`. -/
def fsWrite (fs : FileSys) (p : String) (content : String) : FileSys :=
  fun q => if q = p then some content else fs q

/-- Delete the file at path `p` (no-op when absent). -/
def fsDelete (fs : FileSys) (p : String) : FileSys :=
  fun q => if q = p then none else fs q

/-- Modelled from the spec: the Apply Engine's per-agent step (the apply
engine and `FileSystemUtils.backupFile`/`writeGeneratedFile` are not in the
provided sources, only their tests).  If a file exists at the resolved output
path, copy it to the backup artifact at `path + suffix` (overwriting any
prior backup); then write the new rules to the output path. -/
def applyAgentFile (fs : FileSys) (outputPath suffix rules : String) : FileSys :=
  let backed := match fs outputPath with
    | some existing => fsWrite fs (outputPath ++ suffix) existing
    | none => fs
  fsWrite backed outputPath rules

/-- Modelled from the spec: the Revert Engine's per-agent step
(`revertAllAgentConfigs` is not in the provided sources, only its tests).
If a backup exists, restore it over the output path and delete the backup
unless `keepBackups`; otherwise delete the generated file if present;
otherwise do nothing. -/
def revertAgentFile (fs : FileSys) (outputPath suffix : String) (keepBackups : Bool) : FileSys :=
  match fs (outputPath ++ suffix) with
  | some backupContent =>
      let restored := fsWrite fs outputPath backupContent
      if keepBackups then restored else fsDelete restored (outputPath ++ suffix)
  | none =>
      match fs outputPath with
      | some _ => fsDelete fs outputPath
      | none => fs

/-- Specification-side predicate: filter string `f` (already lower-cased)
matches agent `a` by identifier equality or display-name substring. -/
def MatchesFilter (f : String) (a : IAgent) : Prop :=
  a.identifier = f ∨ jsIncludes (jsToLower a.name) f = true

instance (f : String) (a : IAgent) : Decidable (MatchesFilter f a) := by
  unfold MatchesFilter; infer_instance

/-- Specification-side predicate: some agent of the registry matches `f`. -/
def MatchesSome (f : String) (agents : List IAgent) : Prop :=
  ∃ a ∈ agents, MatchesFilter f a

instance (f : String) (agents : List IAgent) : Decidable (MatchesSome f agents) := by
  unfold MatchesSome; infer_instance

example : resolveSelectedAgents
    { cliAgents := some ["AMP"], agentConfigs := fun _ => none }
    [⟨"amp", "Amp"⟩, ⟨"copilot", "GitHub Copilot"⟩]
    = .ok [⟨"amp", "Amp"⟩] := by rfl

example : resolveSelectedAgents
    { cliAgents := some ["pil"], agentConfigs := fun _ => none }
    [⟨"amp", "Amp"⟩, ⟨"copilot", "GitHub Copilot"⟩]
    = .ok [⟨"copilot", "GitHub Copilot"⟩] := by rfl

example : resolveSelectedAgents
    { cliAgents := some ["nope"], agentConfigs := fun _ => none }
    [⟨"amp", "Amp"⟩]
    = .error ⟨"[ruler] Invalid agent specified: nope (Context: Valid agents are: amp)"⟩ := by
  rfl

example : concatenateRules [⟨"/p/a.md", " X "⟩] (some "/p") "/cwd"
    = "---\nSource: a.md\n---\nX\n" := by decide

example : concatenateRules [] (some "/p") "/cwd" = "" := rfl

theorem jsSetToList_aux (l : List String) (acc : List String) (x : String) :
    x ∈ l.foldl (fun acc y => if acc.contains y then acc else acc ++ [y]) acc ↔
      x ∈ acc ∨ x ∈ l := by
  induction l generalizing acc with
  | nil => simp
  | cons y t ih =>
    simp only [List.foldl_cons]
    rw [ih]
    by_cases h : acc.contains y = true
    · have hy : y ∈ acc := List.mem_of_elem_eq_true h
      rw [if_pos h]
      simp only [List.mem_cons]
      constructor
      · rintro (hx | hx) <;> tauto
      · rintro (hx | rfl | hx) <;> tauto
    · rw [if_neg h]
      simp only [List.mem_append, List.mem_singleton, List.mem_cons]
      tauto

theorem jsSetToList_mem (l : List String) (x : String) :
    x ∈ jsSetToList l ↔ x ∈ l := by
  unfold jsSetToList
  rw [jsSetToList_aux]
  simp

theorem validationPred_iff (agents : List IAgent) (f : String) :
    ((jsSetToList (agents.map fun a => a.identifier)).contains f
        || (jsSetToList (agents.map fun a => jsToLower a.name)).any fun n => jsIncludes n f)
        = true
      ↔ MatchesSome f agents := by
  rw [Bool.or_eq_true, List.any_eq_true]
  rw [show ((jsSetToList (agents.map fun a => a.identifier)).contains f = true) ↔
      f ∈ jsSetToList (agents.map fun a => a.identifier) from List.elem_iff]
  rw [jsSetToList_mem, List.mem_map]
  unfold MatchesSome MatchesFilter
  constructor
  · rintro (⟨a, ha, rfl⟩ | ⟨n, hn, hinc⟩)
    · exact ⟨a, ha, Or.inl rfl⟩
    · rw [jsSetToList_mem, List.mem_map] at hn
      obtain ⟨a, ha, rfl⟩ := hn
      exact ⟨a, ha, Or.inr hinc⟩
  · rintro ⟨a, ha, rfl | hinc⟩
    · exact Or.inl ⟨a, ha, rfl⟩
    · exact Or.inr ⟨jsToLower a.name, by rw [jsSetToList_mem, List.mem_map]; exact ⟨a, ha, rfl⟩, hinc⟩

theorem invalidFilter_eq (agents : List IAgent) (lows : List String) :
    (lows.filter fun f =>
        !((jsSetToList (agents.map fun a => a.identifier)).contains f) &&
          !((jsSetToList (agents.map fun a => jsToLower a.name)).any fun n => jsIncludes n f))
      = lows.filter fun f => !decide (MatchesSome f agents) := by
  apply List.filter_congr
  intro f _
  rw [← Bool.not_or]
  apply congrArg
  rw [Bool.eq_iff_iff, validationPred_iff, decide_eq_true_iff]

theorem hasEntries_some_of_ne_nil {l : List String} (h : l ≠ []) :
    hasEntries (some l) = true := by
  simp [hasEntries, List.length_pos, h]

theorem resolve_cli_ok (allAgents : List IAgent) (cli : List String)
    (defA : Option (List String)) (ac : String → Option IAgentConfig)
    (hne : cli ≠ [])
    (hvalid : ∀ n ∈ cli, MatchesSome (jsToLower n) allAgents) :
    resolveSelectedAgents ⟨some cli, defA, ac⟩ allAgents
      = .ok (allAgents.filter fun agent =>
          cli.any fun n =>
            agent.identifier == jsToLower n
              || jsIncludes (jsToLower agent.name) (jsToLower n)) := by
  have hinv : ((cli.map jsToLower).filter fun f =>
      !((jsSetToList (allAgents.map fun a => a.identifier)).contains f) &&
        !((jsSetToList (allAgents.map fun a => jsToLower a.name)).any fun n => jsIncludes n f))
      = [] := by
    rw [invalidFilter_eq, List.filter_eq_nil_iff]
    intro f hf
    rw [List.mem_map] at hf
    obtain ⟨n, hn, rfl⟩ := hf
    simp [hvalid n hn]
  simp only [resolveSelectedAgents]
  rw [if_pos (hasEntries_some_of_ne_nil hne)]
  simp only [Option.getD_some]
  rw [hinv]
  simp only [List.length_nil, gt_iff_lt, Nat.lt_irrefl, if_false]
  congr 1
  apply List.filter_congr
  intro a _
  rw [List.any_map]
  rfl

theorem resolve_cli_error (allAgents : List IAgent) (cli : List String)
    (defA : Option (List String)) (ac : String → Option IAgentConfig)
    (hne : cli ≠ [])
    (hinvalid : ∃ n ∈ cli, ¬ MatchesSome (jsToLower n) allAgents) :
    resolveSelectedAgents ⟨some cli, defA, ac⟩ allAgents
      = .error (createRulerError
          ("Invalid agent specified: " ++ String.intercalate ", "
            ((cli.map jsToLower).filter fun f => !decide (MatchesSome f allAgents)))
          (some ("Valid agents are: " ++ String.intercalate ", "
            (jsSetToList (allAgents.map fun a => a.identifier))))) := by
  simp only [resolveSelectedAgents]
  rw [if_pos (hasEntries_some_of_ne_nil hne)]
  simp only [Option.getD_some]
  rw [invalidFilter_eq]
  have hpos : 0 < ((cli.map jsToLower).filter fun f => !decide (MatchesSome f allAgents)).length := by
    obtain ⟨n, hn, hnm⟩ := hinvalid
    rw [List.length_pos]
    intro hnil
    have hmem : jsToLower n ∈ (cli.map jsToLower).filter fun f => !decide (MatchesSome f allAgents) := by
      rw [List.mem_filter]
      exact ⟨List.mem_map_of_mem _ hn, by simp [hnm]⟩
    rw [hnil] at hmem
    exact absurd hmem (List.not_mem_nil _)
  rw [if_pos hpos]

theorem resolve_default_ok (allAgents : List IAgent) (defaults : List String)
    (cliA : Option (List String)) (ac : String → Option IAgentConfig)
    (hcli : hasEntries cliA = false) (hne : defaults ≠ [])
    (hvalid : ∀ n ∈ defaults, MatchesSome (jsToLower n) allAgents) :
    resolveSelectedAgents ⟨cliA, some defaults, ac⟩ allAgents
      = .ok (allAgents.filter fun agent =>
          match (ac agent.identifier).bind (fun c => c.enabled) with
          | some b => b
          | none => defaults.any fun n =>
              agent.identifier == jsToLower n
                || jsIncludes (jsToLower agent.name) (jsToLower n)) := by
  have hinv : ((defaults.map jsToLower).filter fun f =>
      !((jsSetToList (allAgents.map fun a => a.identifier)).contains f) &&
        !((jsSetToList (allAgents.map fun a => jsToLower a.name)).any fun n => jsIncludes n f))
      = [] := by
    rw [invalidFilter_eq, List.filter_eq_nil_iff]
    intro f hf
    rw [List.mem_map] at hf
    obtain ⟨n, hn, rfl⟩ := hf
    simp [hvalid n hn]
  simp only [resolveSelectedAgents]
  rw [if_neg (by simp [hcli])]
  rw [if_pos (hasEntries_some_of_ne_nil hne)]
  simp only [Option.getD_some]
  rw [hinv]
  simp only [List.length_nil, gt_iff_lt, Nat.lt_irrefl, if_false]
  congr 1
  apply List.filter_congr
  intro a _
  rw [List.any_map]
  rfl

theorem resolve_default_error (allAgents : List IAgent) (defaults : List String)
    (cliA : Option (List String)) (ac : String → Option IAgentConfig)
    (hcli : hasEntries cliA = false) (hne : defaults ≠ [])
    (hinvalid : ∃ n ∈ defaults, ¬ MatchesSome (jsToLower n) allAgents) :
    resolveSelectedAgents ⟨cliA, some defaults, ac⟩ allAgents
      = .error (createRulerError
          ("Invalid agent specified in default_agents: " ++ String.intercalate ", "
            ((defaults.map jsToLower).filter fun f => !decide (MatchesSome f allAgents)))
          (some ("Valid agents are: " ++ String.intercalate ", "
            (jsSetToList (allAgents.map fun a => a.identifier))))) := by
  simp only [resolveSelectedAgents]
  rw [if_neg (by simp [hcli])]
  rw [if_pos (hasEntries_some_of_ne_nil hne)]
  simp only [Option.getD_some]
  rw [invalidFilter_eq]
  have hpos : 0 < ((defaults.map jsToLower).filter fun f => !decide (MatchesSome f allAgents)).length := by
    obtain ⟨n, hn, hnm⟩ := hinvalid
    rw [List.length_pos]
    intro hnil
    have hmem : jsToLower n ∈ (defaults.map jsToLower).filter fun f => !decide (MatchesSome f allAgents) := by
      rw [List.mem_filter]
      exact ⟨List.mem_map_of_mem _ hn, by simp [hnm]⟩
    rw [hnil] at hmem
    exact absurd hmem (List.not_mem_nil _)
  rw [if_pos hpos]

theorem resolve_fallback_ok (allAgents : List IAgent) (cliA defA : Option (List String))
    (ac : String → Option IAgentConfig)
    (hcli : hasEntries cliA = false) (hdef : hasEntries defA = false) :
    resolveSelectedAgents ⟨cliA, defA, ac⟩ allAgents
      = .ok (allAgents.filter fun agent =>
          (ac agent.identifier).bind (fun c => c.enabled) != some false) := by
  simp only [resolveSelectedAgents]
  rw [if_neg (by simp [hcli])]
  rw [if_neg (by simp [hdef])]

/-- C1: with a non-empty `cliAgents` list whose entries all (after
lower-casing) exactly equal some agent's identifier or occur as a substring
of some agent's lower-cased display name, `resolveSelectedAgents` succeeds
and returns exactly the agents matching at least one filter (identifier
exact-match or lower-cased display-name substring-match), in registry order,
each present at most once; `defaultAgents` and the `agentConfigs` enabled
flags have no effect on the result. -/
theorem C1_cli_tier_selection (allAgents : List IAgent) (cli : List String)
    (defA : Option (List String)) (ac : String → Option IAgentConfig)
    (hne : cli ≠ [])
    (hvalid : ∀ n ∈ cli, MatchesSome (jsToLower n) allAgents) :
    resolveSelectedAgents ⟨some cli, defA, ac⟩ allAgents
        = resolveSelectedAgents ⟨some cli, none, fun _ => none⟩ allAgents
      ∧ ∃ sel, resolveSelectedAgents ⟨some cli, defA, ac⟩ allAgents = .ok sel
          ∧ (∀ a, a ∈ sel ↔ a ∈ allAgents ∧ ∃ n ∈ cli, MatchesFilter (jsToLower n) a)
          ∧ sel.Sublist allAgents
          ∧ (allAgents.Nodup → sel.Nodup) := by
  refine ⟨?_, ?_⟩
  · rw [resolve_cli_ok allAgents cli defA ac hne hvalid,
      resolve_cli_ok allAgents cli none (fun _ => none) hne hvalid]
  · refine ⟨_, resolve_cli_ok allAgents cli defA ac hne hvalid, ?_, List.filter_sublist _,
      fun hnd => hnd.filter _⟩
    intro a
    rw [List.mem_filter]
    simp only [List.any_eq_true, Bool.or_eq_true, beq_iff_eq]
    unfold MatchesFilter
    constructor
    · rintro ⟨ha, n, hn, h⟩
      exact ⟨ha, n, hn, h⟩
    · rintro ⟨ha, n, hn, h⟩
      exact ⟨ha, n, hn, h⟩

/-- C8 (implicit): with non-empty `cliAgents`, `resolveSelectedAgents` fails
if and only if some filter matches no agent, and whenever it returns
successfully the selected list is non-empty (the validation predicate is the
same predicate used for selection). -/
theorem C8_cli_failure_iff (allAgents : List IAgent) (cli : List String)
    (defA : Option (List String)) (ac : String → Option IAgentConfig)
    (hne : cli ≠ []) :
    ((∃ e, resolveSelectedAgents ⟨some cli, defA, ac⟩ allAgents = .error e)
        ↔ ∃ n ∈ cli, ¬ MatchesSome (jsToLower n) allAgents)
      ∧ ∀ sel, resolveSelectedAgents ⟨some cli, defA, ac⟩ allAgents = .ok sel → sel ≠ [] := by
  constructor
  · constructor
    · rintro ⟨e, he⟩
      by_contra hval
      push_neg at hval
      rw [resolve_cli_ok allAgents cli defA ac hne hval] at he
      exact Except.noConfusion he
    · intro hinv
      exact ⟨_, resolve_cli_error allAgents cli defA ac hne hinv⟩
  · intro sel hsel
    by_cases hval : ∀ n ∈ cli, MatchesSome (jsToLower n) allAgents
    · rw [resolve_cli_ok allAgents cli defA ac hne hval] at hsel
      injection hsel with hsel'
      subst hsel'
      obtain ⟨n, hn⟩ := List.exists_mem_of_ne_nil cli hne
      obtain ⟨a, ha, hm⟩ := hval n hn
      intro hnil
      have hmem : a ∈ allAgents.filter fun agent =>
          cli.any fun m =>
            agent.identifier == jsToLower m
              || jsIncludes (jsToLower agent.name) (jsToLower m) := by
        rw [List.mem_filter]
        refine ⟨ha, List.any_eq_true.mpr ⟨n, hn, ?_⟩⟩
        rcases hm with h | h
        · simp [h]
        · simp [h]
      rw [hnil] at hmem
      exact absurd hmem (List.not_mem_nil a)
    · push_neg at hval
      rw [resolve_cli_error allAgents cli defA ac hne hval] at hsel
      exact Except.noConfusion hsel

/-- C2: when the active filter list (CLI agents, or default agents when the
CLI list is absent/empty) contains an entry matching no agent, the resolver
fails without selecting anything; the invalid-name list is exactly the set of
unmatched (lower-cased) entries, and the error enumerates every invalid entry
with every valid agent identifier as context. -/
theorem C2_invalid_agent_error (allAgents : List IAgent) (ac : String → Option IAgentConfig) :
    (∀ cli defA, cli ≠ [] →
      (∃ n ∈ cli, ¬ MatchesSome (jsToLower n) allAgents) →
      resolveSelectedAgents ⟨some cli, defA, ac⟩ allAgents
          = .error (createRulerError
              ("Invalid agent specified: " ++ String.intercalate ", "
                ((cli.map jsToLower).filter fun f => !decide (MatchesSome f allAgents)))
              (some ("Valid agents are: " ++ String.intercalate ", "
                (jsSetToList (allAgents.map fun a => a.identifier)))))
        ∧ (∀ f, f ∈ ((cli.map jsToLower).filter fun f => !decide (MatchesSome f allAgents))
            ↔ f ∈ cli.map jsToLower ∧ ¬ MatchesSome f allAgents)
        ∧ (∀ i, i ∈ jsSetToList (allAgents.map fun a => a.identifier)
            ↔ ∃ a ∈ allAgents, a.identifier = i))
    ∧ (∀ defaults cliA, hasEntries cliA = false → defaults ≠ [] →
      (∃ n ∈ defaults, ¬ MatchesSome (jsToLower n) allAgents) →
      resolveSelectedAgents ⟨cliA, some defaults, ac⟩ allAgents
          = .error (createRulerError
              ("Invalid agent specified in default_agents: " ++ String.intercalate ", "
                ((defaults.map jsToLower).filter fun f => !decide (MatchesSome f allAgents)))
              (some ("Valid agents are: " ++ String.intercalate ", "
                (jsSetToList (allAgents.map fun a => a.identifier)))))
        ∧ (∀ f, f ∈ ((defaults.map jsToLower).filter fun f => !decide (MatchesSome f allAgents))
            ↔ f ∈ defaults.map jsToLower ∧ ¬ MatchesSome f allAgents)) := by
  constructor
  · intro cli defA hne hinv
    refine ⟨resolve_cli_error allAgents cli defA ac hne hinv, ?_, ?_⟩
    · intro f
      simp [List.mem_filter]
    · intro i
      rw [jsSetToList_mem, List.mem_map]
  · intro defaults cliA hcli hne hinv
    refine ⟨resolve_default_error allAgents defaults cliA ac hcli hne hinv, ?_⟩
    intro f
    simp [List.mem_filter]

/-- C3: with `cliAgents` absent/empty, `defaultAgents` non-empty and all its
entries valid, an agent with `enabled = false` is excluded even when listed
in `defaultAgents`, an agent with `enabled = true` is included even when it
matches no entry, and an agent with `enabled` unset is included exactly when
its identifier or lower-cased display name matches some entry. -/
theorem C3_default_tier_enabled_override (allAgents : List IAgent) (defaults : List String)
    (cliA : Option (List String)) (ac : String → Option IAgentConfig)
    (hcli : hasEntries cliA = false) (hne : defaults ≠ [])
    (hvalid : ∀ n ∈ defaults, MatchesSome (jsToLower n) allAgents) :
    ∃ sel, resolveSelectedAgents ⟨cliA, some defaults, ac⟩ allAgents = .ok sel
      ∧ ∀ a ∈ allAgents,
          ((ac a.identifier).bind (fun c => c.enabled) = some false → a ∉ sel)
          ∧ ((ac a.identifier).bind (fun c => c.enabled) = some true → a ∈ sel)
          ∧ ((ac a.identifier).bind (fun c => c.enabled) = none →
              (a ∈ sel ↔ ∃ n ∈ defaults, MatchesFilter (jsToLower n) a)) := by
  refine ⟨_, resolve_default_ok allAgents defaults cliA ac hcli hne hvalid, ?_⟩
  intro a ha
  refine ⟨?_, ?_, ?_⟩ <;> intro h
  · intro hmem
    rw [List.mem_filter, h] at hmem
    exact Bool.noConfusion hmem.2
  · rw [List.mem_filter, h]
    exact ⟨ha, rfl⟩
  · rw [List.mem_filter, h]
    simp only [ha, true_and, List.any_eq_true, Bool.or_eq_true, beq_iff_eq]
    unfold MatchesFilter
    constructor
    · rintro ⟨n, hn, hc⟩
      exact ⟨n, hn, hc⟩
    · rintro ⟨n, hn, hc⟩
      exact ⟨n, hn, hc⟩

/-- C5: with both `cliAgents` and `defaultAgents` absent/empty, the resolver
returns exactly the agents whose `enabled` flag is not explicitly `false`,
in registry order. -/
theorem C5_fallback_tier (allAgents : List IAgent) (cliA defA : Option (List String))
    (ac : String → Option IAgentConfig)
    (hcli : hasEntries cliA = false) (hdef : hasEntries defA = false) :
    ∃ sel, resolveSelectedAgents ⟨cliA, defA, ac⟩ allAgents = .ok sel
      ∧ (∀ a, a ∈ sel ↔ a ∈ allAgents ∧ (ac a.identifier).bind (fun c => c.enabled) ≠ some false)
      ∧ sel.Sublist allAgents
      ∧ (allAgents.Nodup → sel.Nodup) := by
  refine ⟨_, resolve_fallback_ok allAgents cliA defA ac hcli hdef, ?_, List.filter_sublist _,
    fun hnd => hnd.filter _⟩
  intro a
  rw [List.mem_filter]
  simp [bne_iff_ne]

theorem intercalate_go_append (sep : String) (l : List String) (a b : String) :
    String.intercalate.go (a ++ b) sep l = a ++ String.intercalate.go b sep l := by
  induction l generalizing b with
  | nil => rfl
  | cons c t ih =>
    show String.intercalate.go (a ++ b ++ sep ++ c) sep t
        = a ++ String.intercalate.go (b ++ sep ++ c) sep t
    rw [show a ++ b ++ sep ++ c = a ++ (b ++ sep ++ c) by
      simp [String.append_assoc]]
    exact ih (b ++ sep ++ c)

theorem intercalate_go_split (sep : String) (l₁ l₂ : List String) (acc : String) :
    String.intercalate.go acc sep (l₁ ++ l₂)
      = String.intercalate.go (String.intercalate.go acc sep l₁) sep l₂ := by
  induction l₁ generalizing acc with
  | nil => rfl
  | cons c t ih =>
    show String.intercalate.go (acc ++ sep ++ c) sep (t ++ l₂) = _
    exact ih (acc ++ sep ++ c)

theorem intercalate_append_ne_nil (sep : String) (xs ys : List String)
    (hx : xs ≠ []) (hy : ys ≠ []) :
    String.intercalate sep (xs ++ ys)
      = String.intercalate sep xs ++ sep ++ String.intercalate sep ys := by
  obtain ⟨x, xs', rfl⟩ := List.exists_cons_of_ne_nil hx
  obtain ⟨y, ys', rfl⟩ := List.exists_cons_of_ne_nil hy
  show String.intercalate.go x sep (xs' ++ y :: ys')
      = String.intercalate.go x sep xs' ++ sep ++ String.intercalate.go y sep ys'
  rw [intercalate_go_split sep xs' (y :: ys') x]
  show String.intercalate.go (String.intercalate.go x sep xs' ++ sep ++ y) sep ys' = _
  exact intercalate_go_append sep ys' (String.intercalate.go x sep xs' ++ sep) y

/-- C6: on the single fragment `{path: '/p/a.md', content: ' X '}` with base
directory `/p`, `concatenateRules` produces exactly
`"---\nSource: a.md\n---\nX\n"`: content trimmed, label line showing the
path relative to the base (whatever the ambient working directory is). -/
theorem C6_concatenateRules_single (cwd : String) :
    concatenateRules [⟨"/p/a.md", " X "⟩] (some "/p") cwd
      = "---\nSource: a.md\n---\nX\n" := by
  rfl

/-- C7: `concatenateRules` is an order-preserving append homomorphism: on
non-empty fragment lists, concatenating `A ++ B` equals the concatenation of
`A` joined to that of `B` by a single newline. -/
theorem C7_concatenateRules_append (A B : List RuleFile) (base : Option String) (cwd : String)
    (hA : A ≠ []) (hB : B ≠ []) :
    concatenateRules (A ++ B) base cwd
      = concatenateRules A base cwd ++ "\n" ++ concatenateRules B base cwd := by
  simp only [concatenateRules]
  rw [List.map_append]
  apply intercalate_append_ne_nil
  · simp [hA]
  · simp [hB]

/-- C10 (implicit): `concatenateRules` on the empty fragment list returns
the empty string, whatever the base directory and working directory are. -/
theorem C10_concatenateRules_empty (base : Option String) (cwd : String) :
    concatenateRules [] base cwd = "" := by
  rfl

/-- Specification-side predicate: raw config key `key` matches agent `a`
(exact identifier match of the lower-cased key, or substring of the
lower-cased display name), as in `mapRawAgentConfigs`. -/
def keyMatchesAgent (key : String) (a : IAgent) : Bool :=
  a.identifier == jsToLower key || jsIncludes (jsToLower a.name) (jsToLower key)

/-- Specification-side description of `mapRawAgentConfigs` at one identifier:
walk the raw entries in insertion order and keep the settings of the last
entry whose key matches some agent carrying that identifier. -/
def lastMatchValue (raw : List (String × IAgentConfig)) (agents : List IAgent)
    (ident : String) : Option IAgentConfig :=
  raw.foldl (fun acc entry =>
    if agents.any fun a => a.identifier == ident && keyMatchesAgent entry.1 a then some entry.2
    else acc) none

theorem mapRaw_inner (agents : List IAgent) (m : String → Option IAgentConfig)
    (key : String) (cfg : IAgentConfig) (ident : String) :
    (agents.foldl (fun m agent =>
        if agent.identifier == jsToLower key || jsIncludes (jsToLower agent.name) (jsToLower key)
        then fun q => if q = agent.identifier then some cfg else m q
        else m) m) ident
      = if agents.any (fun a => a.identifier == ident && keyMatchesAgent key a) then some cfg
        else m ident := by
  induction agents generalizing m with
  | nil => rfl
  | cons a t ih =>
    simp only [List.foldl_cons, List.any_cons]
    rw [ih]
    by_cases ht : (t.any fun x => x.identifier == ident && keyMatchesAgent key x) = true
    · simp [ht]
    · rw [Bool.not_eq_true] at ht
      simp only [ht, Bool.or_false, Bool.false_eq_true, if_false]
      by_cases hk : keyMatchesAgent key a = true
      · have hk' : (a.identifier == jsToLower key
            || jsIncludes (jsToLower a.name) (jsToLower key)) = true := hk
        rw [if_pos hk']
        by_cases hid : ident = a.identifier
        · subst hid
          simp [hk]
        · rw [if_neg hid]
          have hbe : (a.identifier == ident) = false := by
            rw [beq_eq_false_iff_ne]
            exact fun h => hid h.symm
          simp [hbe]
      · rw [Bool.not_eq_true] at hk
        have hk' : (a.identifier == jsToLower key
            || jsIncludes (jsToLower a.name) (jsToLower key)) = false := hk
        rw [if_neg (by simp [hk'])]
        simp [hk]

theorem mapRaw_outer (raw : List (String × IAgentConfig)) (agents : List IAgent)
    (m : String → Option IAgentConfig) (ident : String) :
    (raw.foldl (fun mappedConfigs entry =>
        agents.foldl (fun m agent =>
          if agent.identifier == jsToLower entry.1
              || jsIncludes (jsToLower agent.name) (jsToLower entry.1)
          then fun q => if q = agent.identifier then some entry.2 else m q
          else m) mappedConfigs) m) ident
      = raw.foldl (fun acc entry =>
          if agents.any fun a => a.identifier == ident && keyMatchesAgent entry.1 a
          then some entry.2
          else acc) (m ident) := by
  induction raw generalizing m with
  | nil => rfl
  | cons e t ih =>
    simp only [List.foldl_cons]
    rw [ih]
    congr 1
    exact mapRaw_inner agents m e.1 e.2 ident

/-- C9 (implicit): in `mapRawAgentConfigs`, the value stored at an agent
identifier is the settings record of the last raw entry (in insertion order)
whose key matches some agent with that identifier — so a key matching several
agents assigns its settings to each of their identifiers, and several keys
matching the same agent silently overwrite one another, last write wins. -/
theorem C9_mapRawAgentConfigs_lastWins :
    (∀ raw agents ident,
      mapRawAgentConfigs raw agents ident = lastMatchValue raw agents ident)
    ∧ (∀ (key : String) (cfg : IAgentConfig) (agents : List IAgent) (a : IAgent),
      a ∈ agents → keyMatchesAgent key a = true →
      mapRawAgentConfigs [(key, cfg)] agents a.identifier = some cfg) := by
  have hmain : ∀ raw agents ident,
      mapRawAgentConfigs raw agents ident = lastMatchValue raw agents ident := by
    intro raw agents ident
    simp only [mapRawAgentConfigs, lastMatchValue]
    exact mapRaw_outer raw agents (fun _ => none) ident
  refine ⟨hmain, ?_⟩
  intro key cfg agents a ha hk
  rw [hmain]
  simp only [lastMatchValue, List.foldl_cons, List.foldl_nil]
  rw [if_pos (List.any_eq_true.mpr ⟨a, ha, by simp [hk]⟩)]

theorem bak_ne (p : String) : p ++ ".bak" ≠ p := by
  intro h
  have hlen := congrArg String.length h
  rw [String.length_append] at hlen
  have h4 : String.length ".bak" = 4 := rfl
  rw [h4] at hlen
  omega

/-- C4: for an agent whose output file holds content `C`, applying new rules
`D` and then reverting (default `keepBackups = false`) restores exactly `C`
and leaves no backup artifact; for an agent with no pre-existing output file
(and no stale backup artifact, per the spec's backup invariant), apply
followed by revert is a net no-op on the whole file system. -/
theorem C4_apply_revert_roundtrip (fs : FileSys) (p D : String) :
    (∀ C, fs p = some C →
      (revertAgentFile (applyAgentFile fs p ".bak" D) p ".bak" false) p = some C
        ∧ (revertAgentFile (applyAgentFile fs p ".bak" D) p ".bak" false) (p ++ ".bak") = none)
    ∧ (fs p = none → fs (p ++ ".bak") = none →
      ∀ q, (revertAgentFile (applyAgentFile fs p ".bak" D) p ".bak" false) q = fs q) := by
  have hne : p ++ ".bak" ≠ p := bak_ne p
  have hne' : p ≠ p ++ ".bak" := fun h => hne h.symm
  constructor
  · intro C hC
    simp only [applyAgentFile, hC]
    have h1 : (fsWrite (fsWrite fs (p ++ ".bak") C) p D) (p ++ ".bak") = some C := by
      simp [fsWrite, hne]
    simp only [revertAgentFile, h1]
    constructor
    · simp [fsDelete, fsWrite, hne, hne']
    · simp [fsDelete]
  · intro hp hbak q
    simp only [applyAgentFile, hp]
    have h1 : (fsWrite fs p D) (p ++ ".bak") = none := by
      rw [show (fsWrite fs p D) (p ++ ".bak") = fs (p ++ ".bak") by simp [fsWrite, hne]]
      exact hbak
    simp only [revertAgentFile, h1]
    have h2 : (fsWrite fs p D) p = some D := by simp [fsWrite]
    simp only [h2]
    by_cases hq : q = p
    · subst hq
      simp [fsDelete, hp]
    · simp [fsDelete, fsWrite, hq]

/-- Sample agent mirroring the Amp agent of the test suite. -/
def sampleAmp : IAgent := ⟨"amp", "Amp"⟩

/-- Sample agent with a multi-word display name. -/
def sampleCopilot : IAgent := ⟨"copilot", "GitHub Copilot"⟩

/-- Sample two-agent registry. -/
def sampleRegistry : List IAgent := [sampleAmp, sampleCopilot]

/-- Closed instance of C1 at a concrete registry and filter list. -/
theorem C1_cli_tier_selection_witness :
    ∃ sel, resolveSelectedAgents
        ⟨some ["AMP", "pil"], some ["copilot"], fun _ => some ⟨some false, none⟩⟩
        sampleRegistry = .ok sel
      ∧ (∀ a, a ∈ sel ↔ a ∈ sampleRegistry
          ∧ ∃ n ∈ ["AMP", "pil"], MatchesFilter (jsToLower n) a)
      ∧ sel.Sublist sampleRegistry
      ∧ (sampleRegistry.Nodup → sel.Nodup) :=
  (C1_cli_tier_selection sampleRegistry ["AMP", "pil"] (some ["copilot"])
    (fun _ => some ⟨some false, none⟩) (by decide) (by decide)).2

/-- Closed instance of C2 at a concrete registry and an unknown CLI name. -/
theorem C2_invalid_agent_error_witness :
    resolveSelectedAgents ⟨some ["nope"], none, fun _ => none⟩ sampleRegistry
      = .error ⟨"[ruler] Invalid agent specified: nope (Context: Valid agents are: amp, copilot)"⟩ := by
  rw [((C2_invalid_agent_error sampleRegistry (fun _ => none)).1 ["nope"] none
    (by decide) ⟨"nope", by decide, by decide⟩).1]
  rfl

/-- Closed instance of C3: enabled `false` excludes a listed agent and
enabled `true` includes an unlisted one. -/
theorem C3_default_tier_enabled_override_witness :
    ∃ sel, resolveSelectedAgents
        ⟨none, some ["amp"], fun i => if i = "copilot" then some ⟨some true, none⟩ else none⟩
        sampleRegistry = .ok sel
      ∧ ∀ a ∈ sampleRegistry,
          (((fun i => if i = "copilot" then some (⟨some true, none⟩ : IAgentConfig) else none)
              a.identifier).bind (fun c => c.enabled) = some false → a ∉ sel)
          ∧ (((fun i => if i = "copilot" then some (⟨some true, none⟩ : IAgentConfig) else none)
              a.identifier).bind (fun c => c.enabled) = some true → a ∈ sel)
          ∧ (((fun i => if i = "copilot" then some (⟨some true, none⟩ : IAgentConfig) else none)
              a.identifier).bind (fun c => c.enabled) = none →
              (a ∈ sel ↔ ∃ n ∈ ["amp"], MatchesFilter (jsToLower n) a)) :=
  C3_default_tier_enabled_override sampleRegistry ["amp"] none
    (fun i => if i = "copilot" then some ⟨some true, none⟩ else none)
    (by decide) (by decide) (by decide)

/-- Closed instance of C4 at a file system holding one pre-existing file. -/
theorem C4_apply_revert_roundtrip_witness :
    (revertAgentFile (applyAgentFile (fun q => if q = "/r/AGENT.md" then some "C" else none)
        "/r/AGENT.md" ".bak" "D") "/r/AGENT.md" ".bak" false) "/r/AGENT.md" = some "C"
    ∧ (revertAgentFile (applyAgentFile (fun q => if q = "/r/AGENT.md" then some "C" else none)
        "/r/AGENT.md" ".bak" "D") "/r/AGENT.md" ".bak" false) ("/r/AGENT.md" ++ ".bak") = none :=
  (C4_apply_revert_roundtrip (fun q => if q = "/r/AGENT.md" then some "C" else none)
    "/r/AGENT.md" "D").1 "C" (by decide)

/-- Closed instance of C5 with one agent explicitly disabled. -/
theorem C5_fallback_tier_witness :
    ∃ sel, resolveSelectedAgents
        ⟨none, some [], fun i => if i = "amp" then some ⟨some false, none⟩ else none⟩
        sampleRegistry = .ok sel
      ∧ (∀ a, a ∈ sel ↔ a ∈ sampleRegistry
          ∧ ((fun i => if i = "amp" then some (⟨some false, none⟩ : IAgentConfig) else none)
              a.identifier).bind (fun c => c.enabled) ≠ some false)
      ∧ sel.Sublist sampleRegistry
      ∧ (sampleRegistry.Nodup → sel.Nodup) :=
  C5_fallback_tier sampleRegistry none (some [])
    (fun i => if i = "amp" then some ⟨some false, none⟩ else none) (by decide) (by decide)

/-- Closed instance of C7 on two concrete singleton fragment lists. -/
theorem C7_concatenateRules_append_witness :
    concatenateRules ([⟨"/p/a.md", " X "⟩] ++ [⟨"/p/b.md", "Y"⟩]) (some "/p") "/cwd"
      = concatenateRules [⟨"/p/a.md", " X "⟩] (some "/p") "/cwd"
          ++ "\n" ++ concatenateRules [⟨"/p/b.md", "Y"⟩] (some "/p") "/cwd" :=
  C7_concatenateRules_append [⟨"/p/a.md", " X "⟩] [⟨"/p/b.md", "Y"⟩] (some "/p") "/cwd"
    (by decide) (by decide)

/-- Closed instance of C8 at a concrete registry and filter lists. -/
theorem C8_cli_failure_iff_witness :
    ((∃ e, resolveSelectedAgents ⟨some ["nope"], none, fun _ => none⟩ sampleRegistry = .error e)
        ↔ ∃ n ∈ ["nope"], ¬ MatchesSome (jsToLower n) sampleRegistry)
      ∧ ∀ sel, resolveSelectedAgents ⟨some ["nope"], none, fun _ => none⟩ sampleRegistry
          = .ok sel → sel ≠ [] :=
  C8_cli_failure_iff sampleRegistry ["nope"] none (fun _ => none) (by decide)

/-- Closed instance of C9: the key `Pilot` reaches the copilot agent through
its display name. -/
theorem C9_mapRawAgentConfigs_lastWins_witness :
    mapRawAgentConfigs [("Pilot", ⟨some false, none⟩)] sampleRegistry "copilot"
      = some ⟨some false, none⟩ :=
  C9_mapRawAgentConfigs_lastWins.2 "Pilot" ⟨some false, none⟩ sampleRegistry sampleCopilot
    (by decide) (by decide)
